import Mathlib

/-!
Verification development for the Baserow excerpt: the formula engine
(`baserow.contrib.database.formula`), row move actions
(`baserow.contrib.database.rows.actions`) and the `allowed_includes`
API decorator (`baserow.api.decorators`).

Shallow embedding: Python functions become Lean functions; Django ORM
row sets become lists of row orders; `Decimal` order values become `ℚ`
(exact, like Python's `Decimal`); exceptions become explicit outcome
values.
-/

set_option autoImplicit false

namespace Baserow

/-! ## `formula_exception_handler` (formula/exceptions.py)

The handler receives an exception.  In debug mode it re-raises it.
Otherwise it tries to import sentry and report the exception (an
`ImportError` is swallowed), then logs an error message and the
exception itself, and returns normally.  We model the observable
outcome: either the exception is raised, or the function returns with
the list of exceptions reported to sentry and the list of log records
it produced. -/

/-- An exception is identified by its message. -/
abbrev Exc := String

/-- Observable outcome of `formula_exception_handler`. -/
inductive HandlerOutcome where
  | raised (e : Exc)
  | returned (sentryReports : List Exc) (logRecords : List String)
  deriving DecidableEq, Repr

/-- The log line built by `logger.error` in the source. -/
def formulaErrorLogLine (e : Exc) : String :=
  "Formula related error occurred: " ++ e ++ ". Please send this error to the "
    ++ "baserow developers at https://baserow.io/contact."

/-- Embedding of `formula_exception_handler(e)`.  `debug` is
`settings.DEBUG`; `sentryAvailable` is whether `sentry_sdk` can be
imported (the `except ImportError: pass` branch). -/
def formula_exception_handler (debug : Bool) (sentryAvailable : Bool) (e : Exc) :
    HandlerOutcome :=
  if debug then
    .raised e
  else
    .returned (if sentryAvailable then [e] else [])
      [formulaErrorLogLine e, e]

/-! ## `get_rows_displacement` and `MoveRowActionType.do` (rows/actions.py)

A generated table model is abstracted to the multiset of `order`
values of its rows, a `List ℚ` (`Decimal` order values are exact
decimals, embedded in `ℚ`).  `model.objects.filter(order__gt=lo,
order__lt=hi).count()` is the number of list entries strictly between
`lo` and `hi`. -/

/-- `model.objects.filter(order__gt=lo, order__lt=hi).count()`. -/
def countBetween (model : List ℚ) (lo hi : ℚ) : Nat :=
  (model.filter (fun o => lo < o && o < hi)).length

/-- Embedding of `get_rows_displacement(model, original_row_order,
new_row_order)`. -/
def get_rows_displacement (model : List ℚ) (originalRowOrder newRowOrder : ℚ) : Int :=
  if newRowOrder > originalRowOrder then
    (countBetween model originalRowOrder newRowOrder : Int)
  else
    -(countBetween model newRowOrder originalRowOrder : Int)

/-- Parameters stored by a registered `move_row` action. -/
structure MoveRowParams where
  tableId : Nat
  rowId : Nat
  rowsDisplacement : Int
  deriving DecidableEq, Repr

/-- Result of `MoveRowActionType.do`: the updated row's order (the row
is always returned to the caller) and the action log after the call. -/
structure MoveRowDoResult where
  updatedRowOrder : ℚ
  log : List MoveRowParams
  deriving DecidableEq, Repr

/-- Embedding of `MoveRowActionType.do`.  The surrounding `RowHandler`
calls are external collaborators: `originalRowOrder` is the row's
order as fetched by `get_row_for_update`, and `newRowOrder` the order
produced by `RowHandler().move_row`.  `model` lists the orders of the
table's rows as seen by `get_rows_displacement`, and `log` is the
action log before the call (`register_action` appends to it). -/
def MoveRowDo (model : List ℚ) (tableId rowId : Nat)
    (originalRowOrder newRowOrder : ℚ) (log : List MoveRowParams) :
    MoveRowDoResult :=
  let rowsDisplacement := get_rows_displacement model originalRowOrder newRowOrder
  if rowsDisplacement = 0 then
    { updatedRowOrder := newRowOrder, log := log }
  else
    { updatedRowOrder := newRowOrder,
      log := log ++ [⟨tableId, rowId, rowsDisplacement⟩] }

/-! ## `allowed_includes` (api/decorators.py)

`raw_include = request.GET.get("include", None)`; `includes =
raw_include.split(",") if raw_include else []` (both `None` and the
empty string are falsy); each allowed name is passed to the view as a
keyword argument `include in includes`. -/

/-- Split a character list at every comma, keeping empty pieces,
exactly like Python's `str.split(",")`. -/
def splitCommaChars : List Char → List (List Char)
  | [] => [[]]
  | c :: cs =>
    let r := splitCommaChars cs
    if c = ',' then [] :: r
    else
      match r with
      | [] => [[c]]
      | h :: t => (c :: h) :: t

/-- Python's `s.split(",")`. -/
def splitComma (s : String) : List String :=
  (splitCommaChars s.data).map String.mk

/-- The comma-separated include items of the request.  `none` models an
absent `include` GET parameter; `raw_include.split(",") if raw_include
else []` treats both `None` and the empty string as falsy. -/
def parseIncludes (rawInclude : Option String) : List String :=
  match rawInclude with
  | none => []
  | some s => if s = "" then [] else splitComma s

/-- The boolean keyword argument passed for one allowed name. -/
def includeFlag (rawInclude : Option String) (name : String) : Bool :=
  name ∈ parseIncludes rawInclude

/-- Embedding of the keyword arguments added by
`allowed_includes(*allowed)` to the wrapped view call. -/
def allowedIncludesKwargs (allowed : List String) (rawInclude : Option String) :
    List (String × Bool) :=
  allowed.map (fun name => (name, includeFlag rawInclude name))

/-! ## Formula engine

Modelled from the spec: the formula package in the excerpt only
contains the package docstring, `__init__` exports and
`exceptions.py`; the grammar, AST, type-resolution and
expression-generation modules are not included.  The definitions below
follow the spec's design contract (sections 4.1-4.5): string literals
in single or double quotes with backslash escapes, integer literals,
nested function calls with comma-separated arguments, field references
written `field(...)` with a quoted name, a maximum-formula-length gate
applied before any parsing, case-insensitive function lookup,
post-order type resolution where `InvalidType` propagates upward, and
exact fixed-point decimal arithmetic. -/

def singleQuote : Char := Char.ofNat 39

def doubleQuote : Char := Char.ofNat 34

def backslash : Char := Char.ofNat 92

/-- Errors produced by the parsing stage. -/
inductive FormulaError where
  | maximumFormulaSize
  | syntaxError (msg : String)
  deriving DecidableEq, Repr

mutual
/-- Modelled from the spec: the Baserow Expression AST, a tagged
variant over literals, field references, function calls and binary
operators (section 3 of the design contract). -/
inductive BaserowExpression where
  | stringLiteral (s : String)
  | intLiteral (n : Int)
  | fieldReference (name : String)
  | functionCall (name : String) (args : BaserowArgList)
  | binaryOp (isAddition : Bool) (left right : BaserowExpression)

/-- Argument list of a function call. -/
inductive BaserowArgList where
  | nil
  | cons (head : BaserowExpression) (tail : BaserowArgList)
end

/-- Skip blanks, tabs, carriage returns and newlines. -/
def skipWs : List Char → List Char
  | [] => []
  | c :: cs => if c = ' ' ∨ c = Char.ofNat 9 ∨ c = Char.ofNat 10 ∨ c = Char.ofNat 13
      then skipWs cs else c :: cs

/-- Scan the body of a string literal delimited by quote character `q`.
A backslash escapes the next character.  Returns the literal's content
and the input remaining after the closing quote. -/
def scanString (q : Char) : List Char → Except FormulaError (List Char × List Char)
  | [] => .error (.syntaxError "unterminated string literal")
  | c :: cs =>
    if c = backslash then
      match cs with
      | [] => .error (.syntaxError "unterminated string literal")
      | e :: rest =>
        match scanString q rest with
        | .error err => .error err
        | .ok (content, r) => .ok (e :: content, r)
    else if c = q then .ok ([], cs)
    else
      match scanString q cs with
      | .error err => .error err
      | .ok (content, r) => .ok (c :: content, r)

/-- Scan a maximal run of identifier characters. -/
def scanIdent : List Char → (List Char × List Char)
  | [] => ([], [])
  | c :: cs =>
    if c.isAlphanum ∨ c = '_' then
      let p := scanIdent cs
      (c :: p.1, p.2)
    else ([], c :: cs)

/-- Scan a maximal run of decimal digits. -/
def scanDigits : List Char → (List Char × List Char)
  | [] => ([], [])
  | c :: cs =>
    if c.isDigit then
      let p := scanDigits cs
      (c :: p.1, p.2)
    else ([], c :: cs)

/-- Numeric value of a digit run. -/
def digitsVal (ds : List Char) : Nat :=
  ds.foldl (fun n c => n * 10 + (c.toNat - 48)) 0

/-- Lower-case a name (for case-insensitive function lookup). -/
def lowerName (s : String) : String :=
  String.mk (s.data.map Char.toLower)

/-- Upper-case a string character by character. -/
def upperString (s : String) : String :=
  String.mk (s.data.map Char.toUpper)

/-- Lower-case a string character by character. -/
def lowerString (s : String) : String :=
  String.mk (s.data.map Char.toLower)

mutual
/-- Modelled from the spec: recursive-descent parser for the formula
grammar fragment the claims exercise: string literals (single or
double quoted, backslash-escapable), integer literals and nested
function calls with comma-separated arguments.  `fuel` bounds the
recursion depth; `parseFormula` supplies enough fuel for any input. -/
def parseExpr : Nat → List Char → Except FormulaError (BaserowExpression × List Char)
  | 0, _ => .error (.syntaxError "formula too deeply nested")
  | fuel + 1, cs =>
    match skipWs cs with
    | [] => .error (.syntaxError "unexpected end of formula")
    | c :: rest =>
      if c = singleQuote ∨ c = doubleQuote then
        match scanString c rest with
        | .error e => .error e
        | .ok (content, rest2) => .ok (.stringLiteral (String.mk content), rest2)
      else if c.isDigit then
        let p := scanDigits (c :: rest)
        .ok (.intLiteral (digitsVal p.1), p.2)
      else if c.isAlpha ∨ c = '_' then
        let p := scanIdent (c :: rest)
        match skipWs p.2 with
        | '(' :: rest3 =>
          match skipWs rest3 with
          | ')' :: rest4 => .ok (.functionCall (String.mk p.1) .nil, rest4)
          | _ =>
            match parseArgs fuel rest3 with
            | .error e => .error e
            | .ok (args, rest4) => .ok (.functionCall (String.mk p.1) args, rest4)
        | _ => .error (.syntaxError "expected opening parenthesis after function name")
      else .error (.syntaxError "unexpected character")

/-- Parse one or more comma-separated arguments followed by the
closing parenthesis. -/
def parseArgs : Nat → List Char → Except FormulaError (BaserowArgList × List Char)
  | 0, _ => .error (.syntaxError "formula too deeply nested")
  | fuel + 1, cs =>
    match parseExpr fuel cs with
    | .error e => .error e
    | .ok (e, rest) =>
      match skipWs rest with
      | ',' :: rest2 =>
        match parseArgs fuel rest2 with
        | .error err => .error err
        | .ok (es, rest3) => .ok (.cons e es, rest3)
      | ')' :: rest2 => .ok (.cons e .nil, rest2)
      | _ => .error (.syntaxError "expected comma or closing parenthesis")
end

/-- Parse a complete source string (no length gate): the whole input
must be consumed up to trailing whitespace. -/
def parseFull (source : String) : Except FormulaError BaserowExpression :=
  let cs := source.data
  match parseExpr (cs.length + 1) cs with
  | .error e => .error e
  | .ok (e, rest) =>
    match skipWs rest with
    | [] => .ok e
    | _ => .error (.syntaxError "unexpected trailing characters")

/-- Modelled from the spec: `parse(source)` rejects any source longer
than the configured maximum formula length with
`MaximumFormulaSizeError` before attempting a full parse (section
4.1). -/
def parse (maxFormulaLength : Nat) (source : String) :
    Except FormulaError BaserowExpression :=
  if source.length > maxFormulaLength then .error .maximumFormulaSize
  else parseFull source

mutual
/-- Modelled from the spec: the AST builder (section 4.2); a pure
structural transform.  A call `field(<string literal>)` (function name
matched case-insensitively) becomes a `fieldReference` node. -/
def build : BaserowExpression → BaserowExpression
  | .stringLiteral s => .stringLiteral s
  | .intLiteral n => .intLiteral n
  | .fieldReference n => .fieldReference n
  | .functionCall name args =>
    if lowerName name = "field" then
      match args with
      | .cons (.stringLiteral s) .nil => .fieldReference s
      | _ => .functionCall name (buildList args)
    else .functionCall name (buildList args)
  | .binaryOp op l r => .binaryOp op (build l) (build r)

/-- `build` mapped over an argument list. -/
def buildList : BaserowArgList → BaserowArgList
  | .nil => .nil
  | .cons e es => .cons (build e) (buildList es)
end

mutual
/-- The field names referenced by an expression, in left-to-right
order. -/
def referencedFieldsOf : BaserowExpression → List String
  | .stringLiteral _ => []
  | .intLiteral _ => []
  | .fieldReference n => [n]
  | .functionCall _ args => referencedFieldsOfList args
  | .binaryOp _ l r => referencedFieldsOf l ++ referencedFieldsOf r

/-- Field names referenced by an argument list. -/
def referencedFieldsOfList : BaserowArgList → List String
  | .nil => []
  | .cons e es => referencedFieldsOf e ++ referencedFieldsOfList es
end

/-- Modelled from the spec: `FormulaHandler.referenced_fields(source)`
runs parse + AST build only, no type resolution (section 4.5).  A
source that fails to parse references no fields. -/
def referenced_fields (maxFormulaLength : Nat) (source : String) : List String :=
  match parse maxFormulaLength source with
  | .error _ => []
  | .ok tree => referencedFieldsOf (build tree)

/-! ### Semantic types and type resolution -/

/-- Errors recorded inside `BaserowFormulaInvalidType` during type
resolution (the spec attaches a human-readable message; we record the
error class and the offending name). -/
inductive ResolveError where
  | fieldDoesNotExist (name : String)
  | unknownFunction (name : String)
  | argumentTypeMismatch (functionName : String)
  | operandTypeMismatch
  deriving DecidableEq, Repr

/-- Modelled from the spec: the closed set of semantic types (section
3).  `invalid` is `BaserowFormulaInvalidType` and carries the errors
of the subtree it annotates. -/
inductive BaserowFormulaType where
  | text
  | char
  | number (precision scale : Nat)
  | boolean
  | date (includeTime tzAware : Bool)
  | singleSelect
  | array (inner : BaserowFormulaType)
  | invalid (errors : List ResolveError)
  deriving DecidableEq, Repr

/-- A field schema snapshot: field name to semantic type. -/
abbrev FieldSchema := List (String × BaserowFormulaType)

/-- Look a field name up in the schema (first entry wins). -/
def lookupField (schema : FieldSchema) (name : String) : Option BaserowFormulaType :=
  match schema with
  | [] => none
  | (n, t) :: rest => if n = name then some t else lookupField rest name

/-- The errors carried by an invalid type; valid types carry none. -/
def invalidErrorsOf : BaserowFormulaType → List ResolveError
  | .invalid es => es
  | _ => []

/-- All errors of a list of resolved argument types. -/
def collectErrors : List BaserowFormulaType → List ResolveError
  | [] => []
  | t :: ts => invalidErrorsOf t ++ collectErrors ts

/-- Modelled from the spec: the text-coercion column of the implicit
coercion table (section 4.3): Text, Char, Number, Boolean and Date
may be used where a concatenation-style function expects Text. -/
def coercibleToText : BaserowFormulaType → Bool
  | .text => true
  | .char => true
  | .number _ _ => true
  | .boolean => true
  | .date _ _ => true
  | _ => false

/-- Decimal digit count of a natural number (auxiliary, fuelled so
that it stays kernel-reducible). -/
def digitCountAux : Nat → Nat → Nat
  | 0, _ => 1
  | fuel + 1, n => if n < 10 then 1 else 1 + digitCountAux fuel (n / 10)

/-- Decimal digit count of a natural number. -/
def digitCount (n : Nat) : Nat := digitCountAux n n

/-- Modelled from the spec: the function-signature registry for the
functions the claims exercise.  Lookup is case-insensitive; CONCAT
takes two or more text-coercible arguments and returns Text; UPPER and
LOWER take one Text (or Char) argument and return Text; any other name
is an unknown function (section 4.3). -/
def resolveFunctionCall (name : String) (argTypes : List BaserowFormulaType) :
    BaserowFormulaType :=
  if lowerName name = "concat" then
    if decide (2 ≤ argTypes.length) && argTypes.all coercibleToText then .text
    else .invalid [.argumentTypeMismatch name]
  else if lowerName name = "upper" || lowerName name = "lower" then
    match argTypes with
    | [.text] => .text
    | [.char] => .text
    | _ => .invalid [.argumentTypeMismatch name]
  else .invalid [.unknownFunction name]

/-- Modelled from the spec: the numeric-promotion rule for `+` and `-`
on two Numbers: result scale is the maximum of the operand scales,
result precision the maximum of the operand precisions plus one
(section 4.3). -/
def numberBinaryOpType : BaserowFormulaType → BaserowFormulaType → BaserowFormulaType
  | .number p1 s1, .number p2 s2 => .number (max p1 p2 + 1) (max s1 s2)
  | _, _ => .invalid [.operandTypeMismatch]

mutual
/-- Modelled from the spec: post-order type resolution (section 4.3).
Argument subtrees are resolved first; their invalid-type errors
propagate upward and short-circuit the enclosing node before any
function or operator lookup. -/
def resolveType (schema : FieldSchema) : BaserowExpression → BaserowFormulaType
  | .stringLiteral _ => .text
  | .intLiteral n => .number (digitCount n.natAbs) 0
  | .fieldReference name =>
    match lookupField schema name with
    | some t => t
    | none => .invalid [.fieldDoesNotExist name]
  | .functionCall name args =>
    let argTypes := resolveTypeList schema args
    let childErrors := collectErrors argTypes
    if childErrors = [] then resolveFunctionCall name argTypes
    else .invalid childErrors
  | .binaryOp _ l r =>
    let lt := resolveType schema l
    let rt := resolveType schema r
    let childErrors := invalidErrorsOf lt ++ invalidErrorsOf rt
    if childErrors = [] then numberBinaryOpType lt rt
    else .invalid childErrors

/-- Types of an argument list, in order. -/
def resolveTypeList (schema : FieldSchema) : BaserowArgList → List BaserowFormulaType
  | .nil => []
  | .cons e es => resolveType schema e :: resolveTypeList schema es
end

/-- Modelled from the spec: `compute_formula` (section 4.5) runs
parse, build and resolve in order, short-circuiting on hard parse
failures but returning type-resolution soft failures (an invalid
semantic type) to the caller as an ordinary value. -/
def compute_formula (maxFormulaLength : Nat) (source : String) (schema : FieldSchema) :
    Except FormulaError BaserowFormulaType :=
  match parse maxFormulaLength source with
  | .error e => .error e
  | .ok tree => .ok (resolveType schema (build tree))

/-! ### Evaluation of generated expressions

Modelled from the spec: the expression generator lowers a typed tree
to a native query expression which is a pure function of the tree
(sections 3 and 4.4); we model the composition generate-then-execute
as a direct evaluator against one row.  Number values are exact
fixed-point decimals: an integer of digits together with a scale,
denoting `digits / 10 ^ scale`. -/

/-- A runtime value. -/
inductive FormulaValue where
  | text (s : String)
  | number (digits : Int) (scale : Nat)
  | boolean (b : Bool)
  | verror
  deriving DecidableEq, Repr

/-- A row: field name to stored value. -/
abbrev FormulaRow := List (String × FormulaValue)

/-- Look a field's value up in the row. -/
def lookupValue (row : FormulaRow) (name : String) : Option FormulaValue :=
  match row with
  | [] => none
  | (n, v) :: rest => if n = name then some v else lookupValue rest name

/-- Exact decimal addition: align both operands to the larger scale
and add the aligned integer digit values. -/
def decimalAdd (a b : Int × Nat) : Int × Nat :=
  let s := max a.2 b.2
  (a.1 * (10 : Int) ^ (s - a.2) + b.1 * (10 : Int) ^ (s - b.2), s)

/-- Exact decimal subtraction, aligned the same way. -/
def decimalSub (a b : Int × Nat) : Int × Nat :=
  let s := max a.2 b.2
  (a.1 * (10 : Int) ^ (s - a.2) - b.1 * (10 : Int) ^ (s - b.2), s)

/-- The rational number denoted by a fixed-point decimal. -/
def decimalToRat (digits : Int) (scale : Nat) : ℚ :=
  (digits : ℚ) / (10 : ℚ) ^ scale

/-- Render a fixed-point decimal (used by the Number-to-Text
coercion). -/
def decimalToString (digits : Int) (scale : Nat) : String :=
  if scale = 0 then toString digits
  else
    let sign := if digits < 0 then "-" else ""
    let ds := toString digits.natAbs
    let padded :=
      if ds.length ≤ scale then String.mk (List.replicate (scale + 1 - ds.length) '0') ++ ds
      else ds
    sign ++ padded.take (padded.length - scale) ++ "." ++ padded.drop (padded.length - scale)

/-- Runtime text coercion, mirroring `coercibleToText`. -/
def valueToText : FormulaValue → Option String
  | .text s => some s
  | .number n scale => some (decimalToString n scale)
  | .boolean b => some (if b then "true" else "false")
  | .verror => none

/-- Coerce every argument value to text, failing if any cannot be. -/
def allTexts : List FormulaValue → Option (List String)
  | [] => some []
  | v :: vs =>
    match valueToText v, allTexts vs with
    | some s, some ss => some (s :: ss)
    | _, _ => none

/-- Concatenate a list of strings. -/
def joinTexts (parts : List String) : String :=
  parts.foldl (fun acc s => acc ++ s) ""

/-- Runtime semantics of the registered functions. -/
def evalFunctionCall (name : String) (argValues : List FormulaValue) : FormulaValue :=
  if lowerName name = "concat" then
    match allTexts argValues with
    | some parts => .text (joinTexts parts)
    | none => .verror
  else if lowerName name = "upper" then
    match argValues with
    | [.text s] => .text (upperString s)
    | _ => .verror
  else if lowerName name = "lower" then
    match argValues with
    | [.text s] => .text (lowerString s)
    | _ => .verror
  else .verror

mutual
/-- Evaluate a built expression against one row. -/
def evalExpr (row : FormulaRow) : BaserowExpression → FormulaValue
  | .stringLiteral s => .text s
  | .intLiteral n => .number n 0
  | .fieldReference name =>
    match lookupValue row name with
    | some v => v
    | none => .verror
  | .functionCall name args => evalFunctionCall name (evalArgs row args)
  | .binaryOp isAddition l r =>
    match evalExpr row l, evalExpr row r with
    | .number n1 s1, .number n2 s2 =>
      let p := if isAddition then decimalAdd (n1, s1) (n2, s2) else decimalSub (n1, s1) (n2, s2)
      .number p.1 p.2
    | _, _ => .verror

/-- Evaluate an argument list against one row. -/
def evalArgs (row : FormulaRow) : BaserowArgList → List FormulaValue
  | .nil => []
  | .cons e es => evalExpr row e :: evalArgs row es
end

/-! ### Dependency graph and cycle detection

Modelled from the spec: the dependency-tracking collaborator builds a
directed graph from `referenced_fields` of every field's formula and
must detect and reject dependency cycles before any field is resolved
(sections 4.5 and 8).  The detector below computes, for a field, the
set of fields its formula transitively references, by saturating the
direct-reference relation inside the graph's finite universe of
names; a field is rejected exactly when it appears in its own
transitive-reference set. -/

/-- A dependency graph: each field name with its direct references. -/
abbrev DepGraph := List (String × List String)

/-- Direct references of a field (first entry wins; names not in the
graph reference nothing). -/
def directRefs (g : DepGraph) (name : String) : List String :=
  match g with
  | [] => []
  | (n, rs) :: rest => if n = name then rs else directRefs rest name

/-- All names mentioned anywhere in the graph. -/
def graphUniverse : DepGraph → Finset String
  | [] => ∅
  | (n, rs) :: rest => insert n (graphUniverse rest ∪ rs.toFinset)

/-- One expansion step: add the direct references of every member. -/
def depStep (g : DepGraph) (s : Finset String) : Finset String :=
  s ∪ s.biUnion (fun y => (directRefs g y).toFinset)

/-- Iterate `depStep` a fixed number of rounds, keeping only names of
the universe `u`. -/
def satIter (g : DepGraph) (u : Finset String) : Nat → Finset String → Finset String
  | 0, s => s
  | fuel + 1, s => satIter g u fuel (s ∪ depStep g s ∩ u)

/-- Saturate a seed set under `depStep` inside the universe `u`: one
round more than the universe can feed suffices, because each round
either strictly grows the set inside `u` or has already reached a
fixed point. -/
def saturateRefs (g : DepGraph) (u s : Finset String) : Finset String :=
  satIter g u ((u \ s).card + 1) s

/-- One step of the reference relation: `b` is directly referenced by
the formula of `a`. -/
def RefEdge (g : DepGraph) (a b : String) : Prop := b ∈ directRefs g a

instance (g : DepGraph) (a b : String) : Decidable (RefEdge g a b) :=
  inferInstanceAs (Decidable (b ∈ directRefs g a))

/-- `a` transitively references `b` (one or more steps). -/
def TransRef (g : DepGraph) : String → String → Prop := Relation.TransGen (RefEdge g)

/-- The computed set of fields transitively referenced by `x`. -/
def transitiveRefs (g : DepGraph) (x : String) : Finset String :=
  saturateRefs g (graphUniverse g) (directRefs g x).toFinset

/-- The detector: a field is rejected when it is in its own computed
transitive-reference set. -/
def detectsCycle (g : DepGraph) (x : String) : Bool :=
  decide (x ∈ transitiveRefs g x)

/-- The dependency graph of a field schema (field name with formula
source text), built from `referenced_fields` only — no type
resolution is invoked. -/
def dependencyGraph (maxFormulaLength : Nat) (fields : List (String × String)) : DepGraph :=
  fields.map (fun p => (p.1, referenced_fields maxFormulaLength p.2))

/-- Whether a source string is syntactically valid (a full parse of it
succeeds, ignoring the length gate). -/
def syntacticallyValid (source : String) : Bool :=
  (parseFull source).toBool

/-! ### Concrete formulas from the package docstring -/

/-- The quote characters as one-character strings, for assembling the
docstring's example formula. -/
def sqStr : String := String.mk [singleQuote]

/-- One-character string holding a double quote. -/
def dqStr : String := String.mk [doubleQuote]

/-- One-character string holding a backslash. -/
def bsStr : String := String.mk [backslash]

/-- The example formula exactly as written in the formula package
docstring: its third argument opens a single-quoted literal whose
single quote is then escaped, and closes with a double quote, leaving
the single-quoted literal unterminated. -/
def docstringFormula : String :=
  "CONCAT(UPPER(LOWER(" ++ sqStr ++ "test" ++ sqStr ++ ")), "
    ++ dqStr ++ "test" ++ bsStr ++ dqStr ++ dqStr ++ ", "
    ++ sqStr ++ "test" ++ bsStr ++ sqStr ++ dqStr ++ ")"

/-- The docstring's example formula with the third string literal
properly terminated by a closing single quote. -/
def docstringFormulaFixed : String :=
  "CONCAT(UPPER(LOWER(" ++ sqStr ++ "test" ++ sqStr ++ ")), "
    ++ dqStr ++ "test" ++ bsStr ++ dqStr ++ dqStr ++ ", "
    ++ sqStr ++ "test" ++ bsStr ++ sqStr ++ sqStr ++ ")"

/-- The built AST of the fixed docstring formula. -/
def docstringFormulaExpr : BaserowExpression :=
  match parse 10000 docstringFormulaFixed with
  | .ok tree => build tree
  | .error _ => .fieldReference "unreachable"

/-- The string the fixed docstring formula evaluates to. -/
def docstringFormulaValue : String :=
  "TESTtest" ++ dqStr ++ "test" ++ sqStr

/-- The string the docstring claims its example evaluates to. -/
def docstringClaimedValue : String :=
  "testtest" ++ dqStr ++ "test" ++ sqStr

/-- The scenario formula referencing a field absent from the schema:
`field(does_not_exist)` with the name quoted. -/
def unknownFieldFormula : String :=
  "field(" ++ sqStr ++ "does_not_exist" ++ sqStr ++ ")"

/-- A two-field schema whose formulas reference each other:
field A is `field(B)` with B quoted, field B is `field(A)`. -/
def mutualRefFields : List (String × String) :=
  [("A", "field(" ++ sqStr ++ "B" ++ sqStr ++ ")"),
   ("B", "field(" ++ sqStr ++ "A" ++ sqStr ++ ")")]

/-- Outcome accessor: whether the handler raised. -/
def HandlerOutcome.didRaise : HandlerOutcome → Bool
  | .raised _ => true
  | .returned _ _ => false

/-- Outcome accessor: exceptions reported to sentry. -/
def HandlerOutcome.reports : HandlerOutcome → List Exc
  | .raised _ => []
  | .returned r _ => r

/-- Outcome accessor: log records produced. -/
def HandlerOutcome.logRecords : HandlerOutcome → List String
  | .raised _ => []
  | .returned _ l => l

/-! ## Theorems -/

/-- No row's order lies strictly between an order and itself. -/
theorem countBetween_self (model : List ℚ) (a : ℚ) : countBetween model a a = 0 := by
  unfold countBetween
  rw [List.length_eq_zero, List.filter_eq_nil_iff]
  intro o _ h
  rw [Bool.and_eq_true, decide_eq_true_eq, decide_eq_true_eq] at h
  exact absurd h.2 (lt_asymm h.1)

/-- C1: `formula_exception_handler(e)` re-raises `e` when
`settings.DEBUG` is true; otherwise it returns without raising, after
logging the error (both the formatted error line and the exception)
and reporting the exception to sentry exactly when the sentry SDK is
importable. -/
theorem formula_exception_handler_debug_split (debug sentryAvailable : Bool) (e : Exc) :
    (debug = true → formula_exception_handler debug sentryAvailable e = .raised e) ∧
    (debug = false →
      (formula_exception_handler debug sentryAvailable e).didRaise = false ∧
      formulaErrorLogLine e ∈ (formula_exception_handler debug sentryAvailable e).logRecords ∧
      e ∈ (formula_exception_handler debug sentryAvailable e).logRecords ∧
      (formula_exception_handler debug sentryAvailable e).reports =
        (if sentryAvailable then [e] else [])) := by
  cases debug <;> cases sentryAvailable <;>
    simp [formula_exception_handler, HandlerOutcome.didRaise, HandlerOutcome.reports,
      HandlerOutcome.logRecords]

/-- Witness for C1 at a concrete exception. -/
theorem formula_exception_handler_debug_split_witness :
    formula_exception_handler true true "err" = .raised "err" ∧
    (formula_exception_handler false true "err").didRaise = false ∧
    (formula_exception_handler false true "err").reports = ["err"] := by
  refine ⟨(formula_exception_handler_debug_split true true "err").1 rfl,
    ((formula_exception_handler_debug_split false true "err").2 rfl).1, ?_⟩
  have h := ((formula_exception_handler_debug_split false true "err").2 rfl).2.2.2
  simpa using h

/-- C5: the compilation pipeline is deterministic: two runs of
parse-build-resolve on the same source against the same schema yield
the same result (the embedded pipeline is a pure function of source
and schema). -/
theorem formula_pipeline_deterministic (maxFormulaLength : Nat) (source : String)
    (schema : FieldSchema) (r1 r2 : Except FormulaError BaserowFormulaType)
    (h1 : r1 = compute_formula maxFormulaLength source schema)
    (h2 : r2 = compute_formula maxFormulaLength source schema) :
    r1 = r2 :=
  h1.trans h2.symm

/-- Witness for C5 at a concrete formula. -/
theorem formula_pipeline_deterministic_witness :
    compute_formula 100 "f(1)" [] = compute_formula 100 "f(1)" [] :=
  formula_pipeline_deterministic 100 "f(1)" [] _ _ rfl rfl

/-- C8: `MoveRowActionType.do` always returns the updated row, and
registers an undo/redo action (appends to the action log) exactly when
the computed rows displacement between the original and the new order
is nonzero; at displacement zero the log is unchanged. -/
theorem move_row_action_frame (model : List ℚ) (tableId rowId : Nat)
    (origOrder newOrder : ℚ) (log : List MoveRowParams) :
    (MoveRowDo model tableId rowId origOrder newOrder log).updatedRowOrder = newOrder ∧
    ((MoveRowDo model tableId rowId origOrder newOrder log).log ≠ log ↔
      get_rows_displacement model origOrder newOrder ≠ 0) ∧
    (get_rows_displacement model origOrder newOrder = 0 →
      (MoveRowDo model tableId rowId origOrder newOrder log).log = log) ∧
    (get_rows_displacement model origOrder newOrder ≠ 0 →
      (MoveRowDo model tableId rowId origOrder newOrder log).log =
        log ++ [⟨tableId, rowId, get_rows_displacement model origOrder newOrder⟩]) := by
  unfold MoveRowDo
  by_cases h : get_rows_displacement model origOrder newOrder = 0
  · simp [h]
  · have hne : log ++ [(⟨tableId, rowId,
        get_rows_displacement model origOrder newOrder⟩ : MoveRowParams)] ≠ log := by
      intro hEq
      simpa using congrArg List.length hEq
    simp [h, hne]

/-- Witness for C8: a move over one row registers an action with
displacement one; a move over no rows leaves the log unchanged. -/
theorem move_row_action_frame_witness :
    (MoveRowDo [(5 : ℚ)] 1 2 0 10 []).log = [⟨1, 2, 1⟩] ∧
    (MoveRowDo [] 1 2 0 10 []).log = [] ∧
    (MoveRowDo [] 1 2 0 10 []).updatedRowOrder = 10 := by
  refine ⟨?_, (move_row_action_frame [] 1 2 0 10 []).2.2.1 (by decide),
    (move_row_action_frame [] 1 2 0 10 []).1⟩
  rw [(move_row_action_frame [(5 : ℚ)] 1 2 0 10 []).2.2.2 (by decide)]
  decide

/-- C9 counterexample: the claim says the displacement is positive
exactly when the second order is greater than the first, but with no
row strictly between the two orders the displacement is zero even
though the second order is greater. -/
theorem rows_displacement_positivity_counterexample :
    ((0 : ℚ) < 1) ∧ ¬ (0 < get_rows_displacement [] 0 1) := by
  constructor
  · norm_num
  · decide

/-- C9 (amended): `get_rows_displacement` is antisymmetric in its two
orders, zero when they are equal, positive only when the new order is
greater than the original, and its magnitude is the number of rows
whose order lies strictly between the two. -/
theorem rows_displacement_props (model : List ℚ) (a b : ℚ) :
    get_rows_displacement model a b = -(get_rows_displacement model b a) ∧
    (a = b → get_rows_displacement model a b = 0) ∧
    (0 < get_rows_displacement model a b → a < b) ∧
    (get_rows_displacement model a b).natAbs = countBetween model (min a b) (max a b) := by
  unfold get_rows_displacement
  rcases lt_trichotomy a b with h | h | h
  · rw [if_pos h, if_neg (not_lt.mpr h.le), neg_neg,
      min_eq_left h.le, max_eq_right h.le]
    exact ⟨rfl, fun hab => absurd hab h.ne, fun _ => h, Int.natAbs_ofNat _⟩
  · subst h
    rw [if_neg (lt_irrefl a), countBetween_self, min_self, max_self, countBetween_self]
    exact ⟨by simp, fun _ => by simp, by simp, by simp⟩
  · rw [if_neg (not_lt.mpr h.le), if_pos h, min_eq_right h.le, max_eq_left h.le]
    refine ⟨rfl, fun hab => absurd hab h.ne.symm, fun hpos => ?_, by simp⟩
    exfalso
    have : (0 : Int) ≤ (countBetween model b a : Int) := Int.ofNat_nonneg _
    omega

/-- Witness for C9 at concrete inputs: one row strictly between the
orders, and equal orders. -/
theorem rows_displacement_props_witness :
    get_rows_displacement [(5 : ℚ)] 0 10 = -(get_rows_displacement [(5 : ℚ)] 10 0) ∧
    get_rows_displacement [(5 : ℚ)] 3 3 = 0 ∧
    ((0 : ℚ) < 10 ∨ True) ∧
    (get_rows_displacement [(5 : ℚ)] 0 10).natAbs = countBetween [(5 : ℚ)] (min 0 10) (max 0 10) := by
  refine ⟨(rows_displacement_props [(5 : ℚ)] 0 10).1,
    (rows_displacement_props [(5 : ℚ)] 3 3).2.1 rfl,
    Or.inl ((rows_displacement_props [(5 : ℚ)] 0 10).2.2.1 (by decide)),
    (rows_displacement_props [(5 : ℚ)] 0 10).2.2.2⟩

/-- C10: `allowed_includes(*allowed)` passes exactly the allowed names
to the view; each flag is true precisely when the name occurs among
the comma-separated items of the `include` GET parameter; an absent or
empty parameter yields false for every name; and items outside the
allowed tuple have no effect (the flags depend only on which allowed
names occur). -/
theorem allowed_includes_semantics (allowed : List String) (raw : Option String)
    (name : String) :
    ((allowedIncludesKwargs allowed raw).map Prod.fst = allowed) ∧
    (name ∈ allowed → (name, includeFlag raw name) ∈ allowedIncludesKwargs allowed raw) ∧
    (includeFlag raw name = true ↔ name ∈ parseIncludes raw) ∧
    ((raw = none ∨ raw = some "") → includeFlag raw name = false) ∧
    (∀ raw2 : Option String,
      (name ∈ parseIncludes raw ↔ name ∈ parseIncludes raw2) →
      includeFlag raw name = includeFlag raw2 name) := by
  refine ⟨?_, ?_, ?_, ?_, ?_⟩
  · induction allowed with
    | nil => rfl
    | cons hd tl ih => simpa [allowedIncludesKwargs] using ih
  · intro h
    exact List.mem_map.mpr ⟨name, h, rfl⟩
  · simp [includeFlag]
  · rintro (rfl | rfl) <;> simp [includeFlag, parseIncludes]
  · intro raw2 hiff
    simp only [includeFlag]
    exact decide_eq_decide.mpr hiff

/-- C3: any source at most the configured maximum length is parsed in
full (so an otherwise syntactically valid one parses successfully),
while any longer source is rejected with `MaximumFormulaSizeError`
regardless of its content — in particular without attempting a full
parse of it. -/
theorem formula_size_gate (maxFormulaLength : Nat) (source : String) :
    (source.length ≤ maxFormulaLength →
      parse maxFormulaLength source = parseFull source) ∧
    (source.length ≤ maxFormulaLength → syntacticallyValid source = true →
      (parse maxFormulaLength source).toBool = true) ∧
    (maxFormulaLength < source.length →
      parse maxFormulaLength source = .error .maximumFormulaSize) := by
  unfold parse
  refine ⟨fun h => ?_, fun h hv => ?_, fun h => ?_⟩
  · rw [if_neg (not_lt.mpr h)]
  · rw [if_neg (not_lt.mpr h)]
    exact hv
  · rw [if_pos h]

/-- Witness for C3 with maximum length 4: a valid 4-character formula
parses; a 5-character formula and an ill-formed 6-character input are
both rejected with the size error alone. -/
theorem formula_size_gate_witness :
    (parse 4 "f(1)").toBool = true ∧
    parse 4 "f(11)" = .error .maximumFormulaSize ∧
    parse 4 "((((((" = .error .maximumFormulaSize :=
  ⟨(formula_size_gate 4 "f(1)").2.1 (by decide) (by decide),
    (formula_size_gate 4 "f(11)").2.2 (by decide),
    (formula_size_gate 4 "((((((").2.2 (by decide)⟩

/-- Exact decimal addition is exact: the rational denoted by the sum
is the sum of the rationals denoted by the operands. -/
theorem decimalAdd_exact (a b : Int × Nat) :
    decimalToRat (decimalAdd a b).1 (decimalAdd a b).2 =
      decimalToRat a.1 a.2 + decimalToRat b.1 b.2 := by
  obtain ⟨n1, s1⟩ := a
  obtain ⟨n2, s2⟩ := b
  have key : ∀ (m1 m2 : Int) (t1 t2 : Nat), t1 ≤ t2 →
      ((m1 * (10 : Int) ^ (t2 - t1) + m2 : Int) : ℚ) / (10 : ℚ) ^ t2 =
        (m1 : ℚ) / 10 ^ t1 + (m2 : ℚ) / 10 ^ t2 := by
    intro m1 m2 t1 t2 ht
    have hx : (10 : ℚ) ^ (t2 - t1) ≠ 0 := pow_ne_zero _ (by norm_num)
    have hpow : (10 : ℚ) ^ t2 = 10 ^ t1 * 10 ^ (t2 - t1) := by
      rw [← pow_add]
      congr 1
      omega
    push_cast
    rw [add_div, hpow]
    congr 1
    exact mul_div_mul_right _ _ hx
  rcases Nat.le_total s1 s2 with h | h
  · unfold decimalAdd decimalToRat
    dsimp only
    rw [Nat.max_eq_right h, Nat.sub_self, pow_zero, mul_one]
    exact key n1 n2 s1 s2 h
  · unfold decimalAdd decimalToRat
    dsimp only
    rw [Nat.max_eq_left h, Nat.sub_self, pow_zero, mul_one]
    have hk := key n2 n1 s2 s1 h
    rw [add_comm ((n2 : Int) * (10 : Int) ^ (s1 - s2)) n1] at hk
    rw [hk]
    exact add_comm _ _

/-- C4: `+` on two Number-typed operands resolves to a Number whose
scale is the maximum of the operand scales and whose precision is the
maximum of the operand precisions plus one; Number(4,2) + Number(3,1)
resolves to Number(5,2); and evaluation computes the exact decimal
sum, 12.34 + 5.6 = 17.94, with no floating-point rounding. -/
theorem number_addition_semantics :
    (∀ (schema : FieldSchema) (e1 e2 : BaserowExpression) (p1 s1 p2 s2 : Nat)
      (isAdd : Bool),
      resolveType schema e1 = .number p1 s1 →
      resolveType schema e2 = .number p2 s2 →
      resolveType schema (.binaryOp isAdd e1 e2) = .number (max p1 p2 + 1) (max s1 s2)) ∧
    (resolveType [("a", .number 4 2), ("b", .number 3 1)]
      (.binaryOp true (.fieldReference "a") (.fieldReference "b")) = .number 5 2) ∧
    (∀ a b : Int × Nat,
      decimalToRat (decimalAdd a b).1 (decimalAdd a b).2 =
        decimalToRat a.1 a.2 + decimalToRat b.1 b.2) ∧
    (evalExpr [("a", .number 1234 2), ("b", .number 56 1)]
      (.binaryOp true (.fieldReference "a") (.fieldReference "b")) = .number 1794 2) ∧
    (decimalToRat 1794 2 = (12.34 : ℚ) + 5.6) := by
  refine ⟨?_, by decide, decimalAdd_exact, by decide, by norm_num [decimalToRat]⟩
  intro schema e1 e2 p1 s1 p2 s2 isAdd h1 h2
  simp [resolveType, h1, h2, invalidErrorsOf, numberBinaryOpType]

/-- Witness for C4 at the scenario's precisions, scales and values. -/
theorem number_addition_semantics_witness :
    resolveType [("a", .number 4 2), ("b", .number 3 1)]
      (.binaryOp true (.fieldReference "a") (.fieldReference "b")) = .number 5 2 ∧
    decimalToRat (decimalAdd (1234, 2) (56, 1)).1 (decimalAdd (1234, 2) (56, 1)).2 =
      decimalToRat 1234 2 + decimalToRat 56 1 :=
  ⟨number_addition_semantics.1 [("a", .number 4 2), ("b", .number 3 1)]
      (.fieldReference "a") (.fieldReference "b") 4 2 3 1 true (by decide) (by decide),
    number_addition_semantics.2.2.1 (1234, 2) (56, 1)⟩

mutual
/-- If an expression references a field name absent from the schema,
its resolved type is invalid and carries a `FieldDoesNotExist` error
for that name. -/
theorem resolveType_missing_field (schema : FieldSchema) (e : BaserowExpression)
    (n : String) (href : n ∈ referencedFieldsOf e)
    (hmiss : lookupField schema n = none) :
    ∃ es, resolveType schema e = .invalid es ∧ .fieldDoesNotExist n ∈ es := by
  match e with
  | .stringLiteral s => simp [referencedFieldsOf] at href
  | .intLiteral k => simp [referencedFieldsOf] at href
  | .fieldReference m =>
    simp only [referencedFieldsOf, List.mem_singleton] at href
    subst href
    exact ⟨[.fieldDoesNotExist n], by simp [resolveType, hmiss], List.mem_singleton.mpr rfl⟩
  | .functionCall name args =>
    simp only [referencedFieldsOf] at href
    have hmem := resolveTypeList_missing_field schema args n href hmiss
    have hne : collectErrors (resolveTypeList schema args) ≠ [] := by
      intro h0
      rw [h0] at hmem
      exact absurd hmem (List.not_mem_nil _)
    exact ⟨collectErrors (resolveTypeList schema args), by simp [resolveType, hne], hmem⟩
  | .binaryOp op l r =>
    simp only [referencedFieldsOf, List.mem_append] at href
    rcases href with h | h
    · obtain ⟨es, heq, hm⟩ := resolveType_missing_field schema l n h hmiss
      have hmem : ResolveError.fieldDoesNotExist n ∈
          invalidErrorsOf (resolveType schema l) ++ invalidErrorsOf (resolveType schema r) :=
        List.mem_append.mpr (Or.inl (by rw [heq]; simpa [invalidErrorsOf] using hm))
      have hne : invalidErrorsOf (resolveType schema l) ++
          invalidErrorsOf (resolveType schema r) ≠ [] := by
        intro h0
        rw [h0] at hmem
        exact absurd hmem (List.not_mem_nil _)
      exact ⟨_, by simp [resolveType, hne], hmem⟩
    · obtain ⟨es, heq, hm⟩ := resolveType_missing_field schema r n h hmiss
      have hmem : ResolveError.fieldDoesNotExist n ∈
          invalidErrorsOf (resolveType schema l) ++ invalidErrorsOf (resolveType schema r) :=
        List.mem_append.mpr (Or.inr (by rw [heq]; simpa [invalidErrorsOf] using hm))
      have hne : invalidErrorsOf (resolveType schema l) ++
          invalidErrorsOf (resolveType schema r) ≠ [] := by
        intro h0
        rw [h0] at hmem
        exact absurd hmem (List.not_mem_nil _)
      exact ⟨_, by simp [resolveType, hne], hmem⟩

/-- List version of `resolveType_missing_field`: the missing-field
error appears among the collected argument errors. -/
theorem resolveTypeList_missing_field (schema : FieldSchema) (args : BaserowArgList)
    (n : String) (href : n ∈ referencedFieldsOfList args)
    (hmiss : lookupField schema n = none) :
    ResolveError.fieldDoesNotExist n ∈ collectErrors (resolveTypeList schema args) := by
  match args with
  | .nil => simp [referencedFieldsOfList] at href
  | .cons e es =>
    simp only [referencedFieldsOfList, List.mem_append] at href
    rcases href with h | h
    · obtain ⟨ers, heq, hm⟩ := resolveType_missing_field schema e n h hmiss
      simp only [resolveTypeList, collectErrors, List.mem_append]
      exact Or.inl (by rw [heq]; simpa [invalidErrorsOf] using hm)
    · have hmem := resolveTypeList_missing_field schema es n h hmiss
      simp only [resolveTypeList, collectErrors, List.mem_append]
      exact Or.inr hmem
end

/-- C6: a formula containing a reference to a field name absent from
the schema resolves to an invalid type carrying a `FieldDoesNotExist`
error, and `compute_formula` returns that invalid type as an ordinary
`.ok` value to its caller rather than as an exception. -/
theorem unknown_field_yields_invalid (maxFormulaLength : Nat) (source : String)
    (schema : FieldSchema) (tree : BaserowExpression) (n : String)
    (hparse : parse maxFormulaLength source = .ok tree)
    (href : n ∈ referencedFieldsOf (build tree))
    (hmiss : lookupField schema n = none) :
    ∃ es, compute_formula maxFormulaLength source schema = .ok (.invalid es) ∧
      ResolveError.fieldDoesNotExist n ∈ es := by
  obtain ⟨es, heq, hm⟩ := resolveType_missing_field schema (build tree) n href hmiss
  exact ⟨es, by simp [compute_formula, hparse, heq], hm⟩

/-- Witness for C6 at the scenario formula against an empty schema. -/
theorem unknown_field_yields_invalid_witness :
    ∃ es, compute_formula 100 unknownFieldFormula [] = .ok (.invalid es) ∧
      ResolveError.fieldDoesNotExist "does_not_exist" ∈ es :=
  unknown_field_yields_invalid 100 unknownFieldFormula []
    (.functionCall "field" (.cons (.stringLiteral "does_not_exist") .nil))
    "does_not_exist" rfl (by decide) rfl

/-- The seed set is contained in any saturation of it. -/
theorem subset_satIter (g : DepGraph) (u : Finset String) :
    ∀ (fuel : Nat) (s : Finset String), s ⊆ satIter g u fuel s := by
  intro fuel
  induction fuel with
  | zero => intro s; exact Finset.Subset.refl s
  | succ f ih =>
    intro s
    exact Finset.Subset.trans Finset.subset_union_left (ih (s ∪ depStep g s ∩ u))

/-- Saturation of an already-closed set is that set. -/
theorem satIter_of_closed (g : DepGraph) (u : Finset String) (fuel : Nat) :
    ∀ s, depStep g s ∩ u ⊆ s → satIter g u fuel s = s := by
  induction fuel with
  | zero => intro s _; rfl
  | succ f ih =>
    intro s h
    show satIter g u f (s ∪ depStep g s ∩ u) = s
    rw [Finset.union_eq_left.mpr h]
    exact ih s h

/-- Adding to `s` a nonempty batch of fresh elements of `u` strictly
shrinks `u \ s`. -/
theorem sdiff_card_lt (u s t : Finset String) (hsub : t ⊆ u) (hns : ¬ t ⊆ s) :
    (u \ (s ∪ t)).card < (u \ s).card := by
  obtain ⟨x, hxt, hxs⟩ := Finset.not_subset.mp hns
  apply Finset.card_lt_card
  rw [Finset.ssubset_iff_of_subset
    (Finset.sdiff_subset_sdiff (Finset.Subset.refl u) Finset.subset_union_left)]
  exact ⟨x, Finset.mem_sdiff.mpr ⟨hsub hxt, hxs⟩,
    fun hmem => (Finset.mem_sdiff.mp hmem).2 (Finset.mem_union_right _ hxt)⟩

/-- With more fuel than `u` can feed fresh elements, the saturated set
is closed under `depStep` inside `u`: each round either strictly grows
the set inside the finite universe or has reached a fixed point that
persists. -/
theorem satIter_closed (g : DepGraph) (u : Finset String) :
    ∀ (fuel : Nat) (s : Finset String), (u \ s).card < fuel →
      depStep g (satIter g u fuel s) ∩ u ⊆ satIter g u fuel s := by
  intro fuel
  induction fuel with
  | zero => intro s h; omega
  | succ f ih =>
    intro s hcard
    by_cases hstable : depStep g s ∩ u ⊆ s
    · show depStep g (satIter g u f (s ∪ depStep g s ∩ u)) ∩ u ⊆
        satIter g u f (s ∪ depStep g s ∩ u)
      rw [Finset.union_eq_left.mpr hstable, satIter_of_closed g u f s hstable]
      exact hstable
    · show depStep g (satIter g u f (s ∪ depStep g s ∩ u)) ∩ u ⊆
        satIter g u f (s ∪ depStep g s ∩ u)
      apply ih
      have hlt := sdiff_card_lt u s (depStep g s ∩ u) Finset.inter_subset_right hstable
      omega

/-- Every element of the saturation satisfies any property that holds
on the seed and is preserved along direct references. -/
theorem satIter_sound (g : DepGraph) (u : Finset String) (P : String → Prop)
    (hstep : ∀ y z, P y → z ∈ directRefs g y → P z) :
    ∀ (fuel : Nat) (s : Finset String), (∀ w ∈ s, P w) →
      ∀ z ∈ satIter g u fuel s, P z := by
  intro fuel
  induction fuel with
  | zero => intro s hs z hz; exact hs z hz
  | succ f ih =>
    intro s hs z hz
    refine ih (s ∪ depStep g s ∩ u) ?_ z hz
    intro w hw
    rcases Finset.mem_union.mp hw with hw1 | hw1
    · exact hs w hw1
    · have hw2 := (Finset.mem_inter.mp hw1).1
      rcases Finset.mem_union.mp hw2 with hw3 | hw3
      · exact hs w hw3
      · obtain ⟨y, hy, hwy⟩ := Finset.mem_biUnion.mp hw3
        exact hstep y w (hs y hy) (List.mem_toFinset.mp hwy)

/-- Direct references always land inside the graph's universe. -/
theorem directRefs_subset_universe (g : DepGraph) (y : String) :
    (directRefs g y).toFinset ⊆ graphUniverse g := by
  induction g with
  | nil =>
    intro x hx
    simp [directRefs] at hx
  | cons p rest ih =>
    obtain ⟨n, rs⟩ := p
    show (if n = y then rs else directRefs rest y).toFinset ⊆
      insert n (graphUniverse rest ∪ rs.toFinset)
    by_cases h : n = y
    · rw [if_pos h]
      intro x hx
      exact Finset.mem_insert.mpr (Or.inr (Finset.mem_union_right _ hx))
    · rw [if_neg h]
      intro x hx
      exact Finset.mem_insert.mpr (Or.inr (Finset.mem_union_left _ (ih hx)))

/-- The directly referenced fields are in the computed
transitive-reference set. -/
theorem transitiveRefs_seed (g : DepGraph) (x : String) :
    (directRefs g x).toFinset ⊆ transitiveRefs g x :=
  subset_satIter g (graphUniverse g) _ _

/-- The computed transitive-reference set is closed under one more
reference step inside the universe. -/
theorem transitiveRefs_closed (g : DepGraph) (x : String) :
    depStep g (transitiveRefs g x) ∩ graphUniverse g ⊆ transitiveRefs g x :=
  satIter_closed g (graphUniverse g) _ _ (Nat.lt_succ_self _)

/-- Completeness: every transitively referenced field is in the
computed set. -/
theorem transitiveRefs_complete (g : DepGraph) (x y : String)
    (h : TransRef g x y) : y ∈ transitiveRefs g x := by
  induction h with
  | single hxz =>
    exact transitiveRefs_seed g x (List.mem_toFinset.mpr hxz)
  | tail hT hedge ih =>
    apply transitiveRefs_closed g x
    apply Finset.mem_inter.mpr
    refine ⟨Finset.mem_union_right _
      (Finset.mem_biUnion.mpr ⟨_, ih, List.mem_toFinset.mpr hedge⟩),
      directRefs_subset_universe g _ (List.mem_toFinset.mpr hedge)⟩

/-- Soundness: every field in the computed set is transitively
referenced. -/
theorem transitiveRefs_sound (g : DepGraph) (x y : String)
    (h : y ∈ transitiveRefs g x) : TransRef g x y := by
  refine satIter_sound g (graphUniverse g) (TransRef g x)
    (fun a b ha hab => Relation.TransGen.tail ha hab) _ _
    (fun w hw => Relation.TransGen.single (List.mem_toFinset.mp hw)) y h

/-- C7: in the dependency graph built from `referenced_fields` of each
field's formula (parse and build only — no type resolution is
involved), any two fields that transitively reference each other
(including a field referencing itself) are both rejected by the cycle
detector; conversely a field the detector accepts does not
transitively reference itself. -/
theorem cycle_detection (maxFormulaLength : Nat) (fields : List (String × String))
    (X Y : String)
    (hXY : TransRef (dependencyGraph maxFormulaLength fields) X Y)
    (hYX : TransRef (dependencyGraph maxFormulaLength fields) Y X) :
    detectsCycle (dependencyGraph maxFormulaLength fields) X = true ∧
    detectsCycle (dependencyGraph maxFormulaLength fields) Y = true ∧
    (∀ Z, detectsCycle (dependencyGraph maxFormulaLength fields) Z = false →
      ¬ TransRef (dependencyGraph maxFormulaLength fields) Z Z) := by
  refine ⟨?_, ?_, ?_⟩
  · exact decide_eq_true
      (transitiveRefs_complete _ _ _ (Relation.TransGen.trans hXY hYX))
  · exact decide_eq_true
      (transitiveRefs_complete _ _ _ (Relation.TransGen.trans hYX hXY))
  · intro Z hZ htrans
    exact absurd (transitiveRefs_complete _ _ _ htrans) (of_decide_eq_false hZ)

/-- Witness for C7: two concrete fields whose formulas reference each
other through `field(...)` calls are both rejected. -/
theorem cycle_detection_witness :
    detectsCycle (dependencyGraph 100 mutualRefFields) "A" = true ∧
    detectsCycle (dependencyGraph 100 mutualRefFields) "B" = true := by
  have h := cycle_detection 100 mutualRefFields "A" "B"
    (Relation.TransGen.single (by decide))
    (Relation.TransGen.single (by decide))
  exact ⟨h.1, h.2.1⟩

/-- C2 counterexample: the docstring's formula, exactly as written,
fails to parse (its third string literal is unterminated: the single
quote inside it is escaped and the literal is closed with a double
quote), so it does not resolve to Text; moreover even with the literal
properly terminated the formula evaluates to the string starting with
upper-case TEST, not the docstring's claimed all-lower-case value. -/
theorem docstring_formula_counterexample :
    parse 10000 docstringFormula = .error (.syntaxError "unterminated string literal") ∧
    (∀ t : BaserowFormulaType, compute_formula 10000 docstringFormula [] ≠ .ok t) ∧
    evalExpr [] docstringFormulaExpr ≠ .text docstringClaimedValue := by
  refine ⟨rfl, ?_, by decide⟩
  intro t h
  rw [show compute_formula 10000 docstringFormula [] =
    .error (.syntaxError "unterminated string literal") from rfl] at h
  exact Except.noConfusion h

/-- C2 (amended): the docstring formula with its third string literal
properly terminated resolves to Text, and its generated expression
evaluates against any row to TESTtest"test' (UPPER applied to the
lower-cased literal yields TEST). -/
theorem docstring_formula_fixed_behavior (row : FormulaRow) :
    compute_formula 10000 docstringFormulaFixed [] = .ok .text ∧
    evalExpr row docstringFormulaExpr = .text docstringFormulaValue := by
  exact ⟨rfl, rfl⟩

/-- Witness for C10 at the docstring's example request. -/
theorem allowed_includes_semantics_witness :
    (allowedIncludesKwargs ["cars", "bikes", "planes"]
      (some "cars,unrelated_stuff,bikes")).map Prod.fst = ["cars", "bikes", "planes"] ∧
    ("cars", true) ∈
      allowedIncludesKwargs ["cars", "bikes", "planes"] (some "cars,unrelated_stuff,bikes") ∧
    includeFlag none "planes" = false := by
  have h := allowed_includes_semantics ["cars", "bikes", "planes"]
    (some "cars,unrelated_stuff,bikes") "cars"
  refine ⟨h.1, ?_, (allowed_includes_semantics [] none "planes").2.2.2.1 (Or.inl rfl)⟩
  have h2 := h.2.1 (by decide)
  have hflag : includeFlag (some "cars,unrelated_stuff,bikes") "cars" = true := by decide
  rwa [hflag] at h2

end Baserow
